import Mathlib

/-!
Verification of the binning + robust outlier detection core of
`src/cont_3sig.py` (the "bin and filter" solar burst detector).

Arrays are modelled as lists of rows.  Floating-point intensity values are
modelled as exact rationals; the missing marker (NaN) is modelled by `none`
in `Option ℚ`, with arithmetic that propagates `none` the way IEEE NaN
propagates through sums and quotients.  The outlier detector, whose claims
are about exact order/median structure, is modelled over plain `ℚ`.
-/

namespace Helio

/-- Embedding of `array.shape[0]`: the number of rows. -/
def shape0 (X : List (List α)) : Nat := X.length

/-- Embedding of `array.shape[1]`: the number of columns, read off the first
row (numpy arrays are rectangular, so every row has this length). -/
def shape1 (X : List (List α)) : Nat := (X.headD []).length

/-- Addition of float values with NaN propagation: a `none` operand makes the
result `none`. -/
def optAdd : Option ℚ → Option ℚ → Option ℚ
  | some x, some y => some (x + y)
  | _, _ => none

/-- Sum of float values with NaN propagation: any `none` makes the sum `none`. -/
def optSum : List (Option ℚ) → Option ℚ
  | [] => some 0
  | a :: l => optAdd a (optSum l)

/-- Embedding of `np.mean` on a block of float values: the sum divided by the
count, with `none` (NaN) propagating through. -/
def optMean (l : List (Option ℚ)) : Option ℚ :=
  (optSum l).map (fun x => x / (l.length : ℚ))

/-- Embedding of `bin_spectrogram(array, freq_factor, time_factor)` from
`cont_3sig.py`: trim the tail of each axis to a multiple of its factor
(`array[:-freq_trim, :]`, `array[:, :-time_trim]`), then reshape into
blocks of shape `(freq_factor, time_factor)` and average each block
(`.reshape(binned_shape).mean(axis=(1, 3))`).  The reshape-then-mean is
expressed by block position: output cell `(i, j)` averages the sub-block of
the trimmed array at rows `i*freq_factor, ...` and columns `j*time_factor, ...`. -/
def bin_spectrogram (array : List (List (Option ℚ))) (freq_factor time_factor : Nat) :
    List (List (Option ℚ)) :=
  let freq_trim := shape0 array % freq_factor
  let a1 := array.take (shape0 array - freq_trim)
  let time_trim := shape1 a1 % time_factor
  let a2 := a1.map (fun row => row.take (shape1 a1 - time_trim))
  (List.range (shape0 a2 / freq_factor)).map (fun i =>
    (List.range (shape1 a2 / time_factor)).map (fun j =>
      optMean (((a2.drop (i * freq_factor)).take freq_factor).map
        (fun row => (row.drop (j * time_factor)).take time_factor)).flatten))

/-- Embedding of `np.abs` on a float value. -/
def absQ (x : ℚ) : ℚ := if x < 0 then -x else x

/-- Insertion into an ascending sorted list, for the windowed median. -/
def insertSorted (x : ℚ) : List ℚ → List ℚ
  | [] => [x]
  | y :: ys => if x ≤ y then x :: y :: ys else y :: insertSorted x ys

/-- Ascending insertion sort: the sorting inside the windowed median
primitive. -/
def sortList : List ℚ → List ℚ
  | [] => []
  | x :: xs => insertSorted x (sortList xs)

/-- Median of an odd-length sample: the middle (rank `length / 2`) element of
the sorted sample, which is the order statistic `scipy.ndimage.median_filter`
selects. -/
def npMedianOdd (l : List ℚ) : ℚ := (sortList l).getD (l.length / 2) 0

/-- Embedding of the `scipy.ndimage` boundary mode `'reflect'`: an index
outside `[0, n)` is mapped back by mirroring about the edges with the edge
sample repeated (`(d c b a | a b c d | d c b a)`), periodically with period
`2n`. -/
def reflectIdx (n : Nat) (i : Int) : Nat :=
  let m := (i % (2 * (n : Int))).toNat
  if m < n then m else 2 * n - 1 - m

/-- The `window_size` consecutive time samples of `row` centered at `t`, with
reflective boundary extension. -/
def windowAt (row : List ℚ) (window_size t : Nat) : List ℚ :=
  (List.range window_size).map (fun (k : Nat) =>
    row.getD (reflectIdx row.length ((t : Int) + (k : Int) - ((window_size / 2 : Nat) : Int))) 0)

/-- One row of `median_filter(·, size=(1, window_size), mode='reflect')`: the
frequency extent of the footprint is 1, so the 2D filter acts on each row
independently as a 1D sliding median along the time axis. -/
def rollingMedianRow (window_size : Nat) (row : List ℚ) : List ℚ :=
  (List.range row.length).map (fun t => npMedianOdd (windowAt row window_size t))

/-- The body of `apply_robust_clip` on one frequency row: rolling median,
absolute difference, rolling MAD, `sigma_equivalent = 1.4826 * rolling_mad`
clamped below by `1e-6`, and the threshold comparison
`difference > sigma_threshold * sigma_equivalent`. -/
def clipRow (window_size : Nat) (sigma_threshold : ℚ) (row : List ℚ) : List Bool :=
  let rolling_median := rollingMedianRow window_size row
  let difference := (row.zip rolling_median).map (fun p => absQ (p.1 - p.2))
  let rolling_mad := rollingMedianRow window_size difference
  (difference.zip rolling_mad).map (fun p =>
    let sigma_equivalent := (14826 / 10000 : ℚ) * p.2
    let clamped := if sigma_equivalent < (1 / 1000000 : ℚ) then (1 / 1000000 : ℚ)
      else sigma_equivalent
    decide (p.1 > sigma_threshold * clamped))

/-- The difference array `difference = np.abs(spectrogram - rolling_median)`
of one frequency row, written pointwise: entry `u` is the absolute deviation
of sample `u` from the rolling median centered at `u`. -/
def differenceRow (row : List ℚ) (window_size : Nat) : List ℚ :=
  (List.range row.length).map (fun u =>
    |row.getD u 0 - npMedianOdd (windowAt row window_size u)|)

/-- Embedding of `apply_robust_clip(spectrogram, window_size, sigma_threshold)`
from `cont_3sig.py`: reject an even window with
`ValueError("window_size must be an odd number.")`, otherwise apply the
median/MAD clip to every frequency row along the time axis. -/
def apply_robust_clip (spectrogram : List (List ℚ)) (window_size : Nat)
    (sigma_threshold : ℚ) : Except String (List (List Bool)) :=
  if window_size % 2 = 0 then
    Except.error "window_size must be an odd number."
  else
    Except.ok (spectrogram.map (clipRow window_size sigma_threshold))

/-- Embedding of `cleaned_data = np.copy(binned_spectrogram);
cleaned_data[outlier_mask] = np.nan` from the orchestration block of
`cont_3sig.py`. -/
def cleaned_data (binned : List (List (Option ℚ))) (outlier_mask : List (List Bool)) :
    List (List (Option ℚ)) :=
  (binned.zip outlier_mask).map (fun rp =>
    (rp.1.zip rp.2).map (fun p => if p.2 then none else p.1))

/-- Embedding of `burst_data = np.full_like(binned_spectrogram, np.nan);
burst_data[outlier_mask] = binned_spectrogram[outlier_mask]` from the
orchestration block of `cont_3sig.py`. -/
def burst_data (binned : List (List (Option ℚ))) (outlier_mask : List (List Bool)) :
    List (List (Option ℚ)) :=
  (binned.zip outlier_mask).map (fun rp =>
    (rp.1.zip rp.2).map (fun p => if p.2 then p.1 else none))

/-- Total number of flagged cells of a mask: embedding of
`np.sum(outlier_mask)`. -/
def countTrue (mask : List (List Bool)) : Nat :=
  (mask.map (fun row => row.countP id)).sum

/-! ### Basic lemmas about the embedded operations -/

theorem getD_of_lt (l : List α) (d : α) {n : Nat} (h : n < l.length) :
    l.getD n d = l[n] := by
  simp [List.getD_eq_getElem?_getD, List.getElem?_eq_getElem h]

theorem getD_map_of_lt (g : List α → List β) (B : List (List α)) {r : Nat}
    (h : r < B.length) : (B.map g).getD r [] = g (B.getD r []) := by
  rw [getD_of_lt _ _ (by simpa using h), getD_of_lt _ _ h, List.getElem_map]

theorem absQ_eq_abs (x : ℚ) : absQ x = |x| := by
  unfold absQ
  rcases lt_or_le x 0 with h | h
  · rw [if_pos h, abs_of_neg h]
  · rw [if_neg (not_lt.mpr h), abs_of_nonneg h]

theorem clamp_eq_max (x e : ℚ) : (if x < e then e else x) = max x e := by
  rcases lt_or_le x e with h | h
  · rw [if_pos h, max_eq_right h.le]
  · rw [if_neg (not_lt.mpr h), max_eq_left h]

theorem clamp_pos (x e : ℚ) (he : 0 < e) : 0 < if x < e then e else x := by
  rcases lt_or_le x e with h | h
  · rwa [if_pos h]
  · rw [if_neg (not_lt.mpr h)]; exact lt_of_lt_of_le he h

theorem reflectIdx_lt {n : Nat} (hn : 0 < n) (i : Int) : reflectIdx n i < n := by
  unfold reflectIdx
  have h2n : (0 : Int) < 2 * (n : Int) := by positivity
  have hlt : i % (2 * (n : Int)) < 2 * (n : Int) := Int.emod_lt_of_pos i h2n
  have hge : (0 : Int) ≤ i % (2 * (n : Int)) := Int.emod_nonneg i (by omega)
  have hm : (i % (2 * (n : Int))).toNat < 2 * n := by omega
  by_cases h : (i % (2 * (n : Int))).toNat < n
  · simp [h]
  · simp only [if_neg h]; omega

theorem reflectIdx_of_lt {n t : Nat} (h : t < n) : reflectIdx n (t : Int) = t := by
  unfold reflectIdx
  have : (t : Int) % (2 * (n : Int)) = t := Int.emod_eq_of_lt (by omega) (by omega)
  simp [this, h]

theorem windowAt_length (row : List ℚ) (w t : Nat) :
    (windowAt row w t).length = w := by
  unfold windowAt
  rw [List.length_map, List.length_range]

theorem mem_windowAt {row : List ℚ} (hrow : 0 < row.length) {w t : Nat}
    {x : ℚ} (hx : x ∈ windowAt row w t) : x ∈ row := by
  unfold windowAt at hx
  rcases List.mem_map.mp hx with ⟨k, _, hk⟩
  rw [getD_of_lt _ _ (reflectIdx_lt hrow _)] at hk
  exact hk ▸ List.getElem_mem _

theorem insertSorted_const {c : ℚ} {l : List ℚ} (h : ∀ x ∈ l, x = c) :
    insertSorted c l = c :: l := by
  cases l with
  | nil => rfl
  | cons y ys =>
    have hy : y = c := h y (List.mem_cons_self y ys)
    unfold insertSorted
    rw [if_pos (by rw [hy])]

theorem sortList_const {c : ℚ} : ∀ {l : List ℚ}, (∀ x ∈ l, x = c) →
    sortList l = l := by
  intro l
  induction l with
  | nil => intro _; rfl
  | cons x xs ih =>
    intro h
    have hx : x = c := h x (List.mem_cons_self x xs)
    have hxs : ∀ y ∈ xs, y = c := fun y hy => h y (List.mem_cons_of_mem _ hy)
    unfold sortList
    rw [ih hxs, hx, insertSorted_const hxs]

theorem npMedianOdd_const {c : ℚ} {l : List ℚ} (hne : 0 < l.length)
    (h : ∀ x ∈ l, x = c) : npMedianOdd l = c := by
  unfold npMedianOdd
  rw [sortList_const h, getD_of_lt _ _ (by omega : l.length / 2 < l.length)]
  exact h _ (List.getElem_mem _)

theorem rollingMedianRow_length (w : Nat) (row : List ℚ) :
    (rollingMedianRow w row).length = row.length := by
  simp [rollingMedianRow]

theorem differenceRow_length (row : List ℚ) (w : Nat) :
    (differenceRow row w).length = row.length := by
  simp [differenceRow]

theorem rollingMedianRow_getElem (w : Nat) (row : List ℚ) {t : Nat}
    (h : t < (rollingMedianRow w row).length) :
    (rollingMedianRow w row)[t] = npMedianOdd (windowAt row w t) := by
  simp [rollingMedianRow]

theorem rollingMedianRow_const {c : ℚ} {row : List ℚ} (h : ∀ x ∈ row, x = c)
    {w : Nat} (hw : 0 < w) :
    rollingMedianRow w row = List.replicate row.length c := by
  apply List.ext_getElem
  · simp [rollingMedianRow_length]
  · intro t h1 h2
    rw [rollingMedianRow_getElem, List.getElem_replicate]
    rw [rollingMedianRow_length] at h1
    refine npMedianOdd_const (by simpa [windowAt_length]) ?_
    intro x hx
    exact h x (mem_windowAt (by omega) hx)

theorem diff_eq_differenceRow (w : Nat) (row : List ℚ) :
    (row.zip (rollingMedianRow w row)).map (fun p => absQ (p.1 - p.2)) =
      differenceRow row w := by
  apply List.ext_getElem
  · simp [rollingMedianRow_length, differenceRow]
  · intro t h1 h2
    have ht : t < row.length := by
      simpa [rollingMedianRow_length] using h1
    simp only [List.getElem_map, List.getElem_zip, differenceRow, List.getElem_range]
    rw [rollingMedianRow_getElem, absQ_eq_abs, getD_of_lt _ _ ht]

theorem clipRow_length (w : Nat) (s : ℚ) (row : List ℚ) :
    (clipRow w s row).length = row.length := by
  simp [clipRow, rollingMedianRow_length, Nat.min_self]

theorem differenceRow_getElem (row : List ℚ) (w : Nat) {u : Nat}
    (h : u < (differenceRow row w).length) :
    (differenceRow row w)[u] =
      |row.getD u 0 - npMedianOdd (windowAt row w u)| := by
  simp [differenceRow]

theorem clipRow_eq (w : Nat) (s : ℚ) (row : List ℚ) :
    clipRow w s row =
      ((differenceRow row w).zip
          (rollingMedianRow w (differenceRow row w))).map (fun p =>
        decide (p.1 > s * max ((14826 / 10000 : ℚ) * p.2) (1 / 1000000 : ℚ))) := by
  simp only [clipRow]
  rw [diff_eq_differenceRow]
  congr 1
  funext p
  rw [clamp_eq_max]

theorem clipRow_getD (w : Nat) (s : ℚ) (row : List ℚ) {t : Nat}
    (ht : t < row.length) :
    (clipRow w s row).getD t false =
      decide (|row.getD t 0 - npMedianOdd (windowAt row w t)| >
        s * max ((14826 / 10000 : ℚ) *
            npMedianOdd (windowAt (differenceRow row w) w t))
          (1 / 1000000 : ℚ)) := by
  rw [clipRow_eq]
  have hlen : (((differenceRow row w).zip
      (rollingMedianRow w (differenceRow row w))).map (fun p =>
        decide (p.1 > s * max ((14826 / 10000 : ℚ) * p.2) (1 / 1000000 : ℚ)))).length
      = row.length := by
    simp [rollingMedianRow_length, differenceRow_length, Nat.min_self]
  rw [getD_of_lt _ _ (by omega), List.getElem_map, List.getElem_zip]
  have hd : t < (differenceRow row w).length := by
    rwa [differenceRow_length]
  rw [differenceRow_getElem _ _ hd, rollingMedianRow_getElem]

theorem med_one (row : List ℚ) {t : Nat} (ht : t < row.length) :
    npMedianOdd (windowAt row 1 t) = row.getD t 0 := by
  have hidx : (t : Int) + 0 - ((1 / 2 : Nat) : Int) = (t : Int) := by
    norm_num
  have hone : List.range 1 = [0] := rfl
  have hwin : windowAt row 1 t = [row.getD t 0] := by
    unfold windowAt
    simp only [hone, List.map_cons, List.map_nil, Nat.cast_zero]
    rw [hidx, reflectIdx_of_lt ht]
  rw [hwin]
  simp [npMedianOdd, sortList, insertSorted]

theorem differenceRow_one (row : List ℚ) :
    differenceRow row 1 = List.replicate row.length 0 := by
  apply List.ext_getElem
  · simp [differenceRow_length]
  · intro t h1 h2
    rw [differenceRow_getElem _ _ h1, List.getElem_replicate]
    rw [differenceRow_length] at h1
    rw [med_one row h1]
    simp

theorem differenceRow_const {c : ℚ} {row : List ℚ} (h : ∀ x ∈ row, x = c)
    {w : Nat} (hw : 0 < w) :
    differenceRow row w = List.replicate row.length 0 := by
  apply List.ext_getElem
  · simp [differenceRow_length]
  · intro t h1 h2
    rw [differenceRow_getElem _ _ h1, List.getElem_replicate]
    rw [differenceRow_length] at h1
    have hmed : npMedianOdd (windowAt row w t) = c := by
      refine npMedianOdd_const (by simp [windowAt_length, hw]) ?_
      exact fun x hx => h x (mem_windowAt (by omega) hx)
    rw [hmed, getD_of_lt _ _ h1, h _ (List.getElem_mem _)]
    simp

theorem clipRow_all_false_of_diff_zero (w : Nat) (s : ℚ) (hs : 0 < s)
    (hw : 0 < w) (row : List ℚ)
    (hd : differenceRow row w = List.replicate row.length 0) :
    clipRow w s row = List.replicate row.length false := by
  rw [clipRow_eq, hd]
  have hmad : rollingMedianRow w (List.replicate row.length (0 : ℚ)) =
      List.replicate row.length 0 := by
    have := @rollingMedianRow_const 0 (List.replicate row.length (0 : ℚ))
      (fun x hx => (List.eq_of_mem_replicate hx)) w hw
    simpa using this
  rw [hmad, List.zip_replicate', List.map_replicate]
  have hfalse : decide (((0 : ℚ), (0 : ℚ)).1 >
      s * max ((14826 / 10000 : ℚ) * ((0 : ℚ), (0 : ℚ)).2) (1 / 1000000 : ℚ)) = false := by
    apply decide_eq_false
    have hmax : max ((14826 / 10000 : ℚ) * (0 : ℚ)) (1 / 1000000 : ℚ) =
        (1 / 1000000 : ℚ) := by
      rw [mul_zero]
      exact max_eq_right (by norm_num)
    rw [hmax]
    have : (0 : ℚ) < s * (1 / 1000000 : ℚ) := mul_pos hs (by norm_num)
    exact not_lt.mpr this.le
  rw [hfalse]

theorem clipRow_one (s : ℚ) (hs : 0 < s) (row : List ℚ) :
    clipRow 1 s row = List.replicate row.length false :=
  clipRow_all_false_of_diff_zero 1 s hs (by norm_num) row (differenceRow_one row)

/-! ### Claim theorems -/

/-- C4: `apply_robust_clip` fails fast exactly on an even `window_size`: the
result is an `Except.error` if and only if `window_size` is even, and on an
odd window it returns the full per-row mask (no partial result). -/
theorem even_window_rejection (B : List (List ℚ)) (w : Nat) (s : ℚ) :
    ((∃ e, apply_robust_clip B w s = Except.error e) ↔ w % 2 = 0) ∧
    (w % 2 = 1 → apply_robust_clip B w s = Except.ok (B.map (clipRow w s))) := by
  unfold apply_robust_clip
  by_cases h : w % 2 = 0
  · constructor
    · simp [h]
    · intro h1; omega
  · constructor
    · simp [h]
    · intro _; rw [if_neg h]

/-- C10: `window_size = 1` passes the oddness check, the 1-wide rolling median
is the identity, so the difference is identically zero, never exceeds
`sigma_threshold` times the clamped floor, and the detector returns the
all-False mask instead of erroring. -/
theorem window_one_all_false (B : List (List ℚ)) (s : ℚ) (hs : 0 < s) :
    apply_robust_clip B 1 s =
      Except.ok (B.map (fun row => List.replicate row.length false)) := by
  unfold apply_robust_clip
  rw [if_neg (by norm_num)]
  congr 1
  exact List.map_congr_left (fun row _ => clipRow_one s hs row)

/-- Witness for C10 at a concrete input. -/
theorem window_one_all_false_witness :
    apply_robust_clip [[(7 : ℚ), 8, 9]] 1 3 =
      Except.ok ([[(7 : ℚ), 8, 9]].map (fun row => List.replicate row.length false)) :=
  window_one_all_false [[(7 : ℚ), 8, 9]] 3 (by norm_num)

/-- C8: row-locality. If two inputs agree on row `r`, the masks produced by
`apply_robust_clip` (with the same odd window and threshold) agree on row `r`:
each output row is determined solely by the corresponding input row. -/
theorem row_locality (B1 B2 : List (List ℚ)) (w : Nat) (s : ℚ) (r : Nat)
    (hw : w % 2 = 1) (hr1 : r < B1.length) (hr2 : r < B2.length)
    (hrow : B1.getD r [] = B2.getD r [])
    (M1 M2 : List (List Bool))
    (h1 : apply_robust_clip B1 w s = Except.ok M1)
    (h2 : apply_robust_clip B2 w s = Except.ok M2) :
    M1.getD r [] = M2.getD r [] := by
  unfold apply_robust_clip at h1 h2
  rw [if_neg (by omega)] at h1 h2
  injection h1 with h1
  injection h2 with h2
  subst h1
  subst h2
  rw [getD_map_of_lt _ _ hr1, getD_map_of_lt _ _ hr2, hrow]

/-- Witness for C8 at concrete inputs that agree on row 0 and differ on row 1. -/
theorem row_locality_witness :
    (List.map (clipRow 3 2) [[(1 : ℚ), 2, 3], [4, 4, 4]]).getD 0 [] =
      (List.map (clipRow 3 2) [[(1 : ℚ), 2, 3], [9, 9, 9]]).getD 0 [] :=
  row_locality [[(1 : ℚ), 2, 3], [4, 4, 4]] [[(1 : ℚ), 2, 3], [9, 9, 9]] 3 2 0
    rfl (by norm_num) (by norm_num) rfl _ _ rfl rfl

/-- C6 counterexample: the row `[5, 5, 5]` is constant-valued, yet the rolling
median computed by the detector on it is `[5, 5, 5]`, not the all-zero row the
claim asserts (`rolling_median == 0` fails for a nonzero constant row). -/
theorem constant_row_zero_median_cex :
    (∀ x ∈ [(5 : ℚ), 5, 5], x = 5) ∧
    rollingMedianRow 3 [(5 : ℚ), 5, 5] ≠ List.replicate 3 (0 : ℚ) := by
  refine ⟨by decide, by decide⟩

/-- C6 (amended): for a constant-valued row the rolling median equals the
constant everywhere (hence the difference `|B - median|` is 0 everywhere), the
rolling MAD is 0 everywhere, and no pixel of that row is ever flagged, for
every odd window and positive threshold. -/
theorem constant_row_never_flagged (B : List (List ℚ)) (r : Nat) (c : ℚ)
    (w : Nat) (s : ℚ) (hw : w % 2 = 1) (hs : 0 < s)
    (hc : ∀ x ∈ B.getD r [], x = c) :
    rollingMedianRow w (B.getD r []) = List.replicate (B.getD r []).length c ∧
    differenceRow (B.getD r []) w = List.replicate (B.getD r []).length 0 ∧
    rollingMedianRow w (differenceRow (B.getD r []) w) =
      List.replicate (B.getD r []).length 0 ∧
    ∀ M, apply_robust_clip B w s = Except.ok M →
      M.getD r [] = List.replicate (B.getD r []).length false := by
  have hw0 : 0 < w := by omega
  have hd := differenceRow_const hc hw0
  refine ⟨rollingMedianRow_const hc hw0, hd, ?_, ?_⟩
  · rw [hd]
    have := @rollingMedianRow_const 0 (List.replicate (B.getD r []).length (0 : ℚ))
      (fun x hx => List.eq_of_mem_replicate hx) w hw0
    simpa using this
  · intro M hM
    unfold apply_robust_clip at hM
    rw [if_neg (by omega)] at hM
    injection hM with hM
    subst hM
    by_cases hr : r < B.length
    · rw [getD_map_of_lt _ _ hr]
      exact clipRow_all_false_of_diff_zero w s hs hw0 _ hd
    · have h1 : (B.map (clipRow w s)).getD r [] = [] :=
        List.getD_eq_default _ _ (by simpa using Nat.le_of_not_lt hr)
      have h2 : B.getD r [] = [] :=
        List.getD_eq_default _ _ (Nat.le_of_not_lt hr)
      rw [h1, h2]
      rfl

/-- Witness for the amended C6 at a concrete constant row. -/
theorem constant_row_never_flagged_witness :
    rollingMedianRow 1 ([[(5 : ℚ)]].getD 0 []) =
      List.replicate ([[(5 : ℚ)]].getD 0 []).length 5 ∧
    differenceRow ([[(5 : ℚ)]].getD 0 []) 1 =
      List.replicate ([[(5 : ℚ)]].getD 0 []).length 0 ∧
    rollingMedianRow 1 (differenceRow ([[(5 : ℚ)]].getD 0 []) 1) =
      List.replicate ([[(5 : ℚ)]].getD 0 []).length 0 ∧
    ∀ M, apply_robust_clip [[(5 : ℚ)]] 1 3 = Except.ok M →
      M.getD 0 [] = List.replicate ([[(5 : ℚ)]].getD 0 []).length false :=
  constant_row_never_flagged [[(5 : ℚ)]] 0 5 1 3 rfl (by norm_num) (by decide)

/-- C5: for a fixed input and odd window, every cell flagged at the larger
threshold `s2` is also flagged at the smaller threshold `s1`, and the total
outlier count never increases as the threshold increases. -/
theorem threshold_monotonicity (B : List (List ℚ)) (w : Nat) (s1 s2 : ℚ)
    (hw : w % 2 = 1) (hs1 : 0 < s1) (h12 : s1 ≤ s2)
    (M1 M2 : List (List Bool))
    (h1 : apply_robust_clip B w s1 = Except.ok M1)
    (h2 : apply_robust_clip B w s2 = Except.ok M2) :
    (∀ r t, (M2.getD r []).getD t false = true →
      (M1.getD r []).getD t false = true) ∧
    countTrue M2 ≤ countTrue M1 := by
  unfold apply_robust_clip at h1 h2
  rw [if_neg (by omega)] at h1 h2
  injection h1 with h1
  injection h2 with h2
  subst h1
  subst h2
  have hpred : ∀ p : ℚ × ℚ,
      decide (p.1 > s2 * max ((14826 / 10000 : ℚ) * p.2) (1 / 1000000 : ℚ)) = true →
      decide (p.1 > s1 * max ((14826 / 10000 : ℚ) * p.2) (1 / 1000000 : ℚ)) = true := by
    intro p hp
    rw [decide_eq_true_eq] at hp ⊢
    have hm : (0 : ℚ) < max ((14826 / 10000 : ℚ) * p.2) (1 / 1000000 : ℚ) :=
      lt_of_lt_of_le (by norm_num) (le_max_right _ _)
    exact lt_of_le_of_lt (mul_le_mul_of_nonneg_right h12 hm.le) hp
  constructor
  · intro r t ht
    by_cases hr : r < B.length
    · rw [getD_map_of_lt _ _ hr] at ht ⊢
      rw [clipRow_eq] at ht ⊢
      by_cases htl : t < ((differenceRow (B.getD r []) w).zip
          (rollingMedianRow w (differenceRow (B.getD r []) w))).length
      · rw [getD_of_lt _ _ (by simpa using htl)] at ht ⊢
        rw [List.getElem_map] at ht ⊢
        exact hpred _ ht
      · exfalso
        rw [List.getD_eq_default _ _ (by simpa using Nat.le_of_not_lt htl)] at ht
        exact Bool.false_ne_true ht
    · exfalso
      have hM : (List.map (clipRow w s2) B).getD r [] = [] :=
        List.getD_eq_default _ _ (by simpa using Nat.le_of_not_lt hr)
      rw [hM] at ht
      simp at ht
  · unfold countTrue
    rw [List.map_map, List.map_map]
    apply List.sum_le_sum
    intro row hrow
    simp only [Function.comp]
    rw [clipRow_eq, clipRow_eq, List.countP_map, List.countP_map]
    apply List.countP_mono_left
    intro p hp hpp
    exact hpred p hpp

/-- Witness for C5 at a concrete input with a spike. -/
theorem threshold_monotonicity_witness :
    (∀ r t, ((List.map (clipRow 3 2) [[(0 : ℚ), 100, 0]]).getD r []).getD t false = true →
      ((List.map (clipRow 3 1) [[(0 : ℚ), 100, 0]]).getD r []).getD t false = true) ∧
    countTrue (List.map (clipRow 3 2) [[(0 : ℚ), 100, 0]]) ≤
      countTrue (List.map (clipRow 3 1) [[(0 : ℚ), 100, 0]]) :=
  threshold_monotonicity [[(0 : ℚ), 100, 0]] 3 1 2 rfl (by norm_num) (by norm_num)
    _ _ rfl rfl

/-- C1: for every input, positive odd window and positive threshold, the
detector succeeds with a mask of the same shape as the input, and cell
`(r, t)` is flagged exactly when the absolute deviation of sample `t` from
the reflective-window median of row `r` exceeds `sigma_threshold` times
`max(1.4826 * MAD, 1e-6)`, where the MAD is the reflective-window median of
the row's absolute-deviation array. -/
theorem detect_mask_characterization (B : List (List ℚ)) (w : Nat) (s : ℚ)
    (hw : w % 2 = 1) (hs : 0 < s) :
    ∃ M, apply_robust_clip B w s = Except.ok M ∧
      M.length = B.length ∧
      (∀ r, (M.getD r []).length = (B.getD r []).length) ∧
      (∀ r t, r < B.length → t < (B.getD r []).length →
        ((M.getD r []).getD t false = true ↔
          |(B.getD r []).getD t 0 - npMedianOdd (windowAt (B.getD r []) w t)| >
            s * max ((14826 / 10000 : ℚ) *
                npMedianOdd (windowAt (differenceRow (B.getD r []) w) w t))
              (1 / 1000000 : ℚ))) := by
  refine ⟨B.map (clipRow w s), ?_, by simp, ?_, ?_⟩
  · unfold apply_robust_clip
    rw [if_neg (by omega)]
  · intro r
    by_cases hr : r < B.length
    · rw [getD_map_of_lt _ _ hr, clipRow_length]
    · rw [List.getD_eq_default _ _ (by simpa using Nat.le_of_not_lt hr),
        List.getD_eq_default _ _ (Nat.le_of_not_lt hr)]
      rfl
  · intro r t hr ht
    rw [getD_map_of_lt _ _ hr, clipRow_getD _ _ _ ht, decide_eq_true_eq]

/-- Witness for C1 at a concrete input. -/
theorem detect_mask_characterization_witness :
    ∃ M, apply_robust_clip [[(1 : ℚ), 2]] 1 1 = Except.ok M ∧
      M.length = ([[(1 : ℚ), 2]] : List (List ℚ)).length ∧
      (∀ r, (M.getD r []).length = (([[(1 : ℚ), 2]] : List (List ℚ)).getD r []).length) ∧
      (∀ r t, r < ([[(1 : ℚ), 2]] : List (List ℚ)).length →
        t < (([[(1 : ℚ), 2]] : List (List ℚ)).getD r []).length →
        ((M.getD r []).getD t false = true ↔
          |(([[(1 : ℚ), 2]] : List (List ℚ)).getD r []).getD t 0 -
              npMedianOdd (windowAt (([[(1 : ℚ), 2]] : List (List ℚ)).getD r []) 1 t)| >
            1 * max ((14826 / 10000 : ℚ) *
                npMedianOdd (windowAt
                  (differenceRow (([[(1 : ℚ), 2]] : List (List ℚ)).getD r []) 1) 1 t))
              (1 / 1000000 : ℚ))) :=
  detect_mask_characterization [[(1 : ℚ), 2]] 1 1 rfl (by norm_num)

/-! ### Lemmas about the binner -/

theorem headD_take {α : Type} (X : List (List α)) {k : Nat} (hk : 1 ≤ k) :
    (X.take k).headD [] = X.headD [] := by
  cases X with
  | nil => simp
  | cons x xs =>
    cases k with
    | zero => omega
    | succ k => simp

theorem getD_map_range {α : Type} (g : Nat → α) (d : α) {n i : Nat} (hi : i < n) :
    ((List.range n).map g).getD i d = g i := by
  rw [getD_of_lt _ _ (by simpa using hi), List.getElem_map, List.getElem_range]

theorem optSum_eq_none {l : List (Option ℚ)} (h : none ∈ l) : optSum l = none := by
  induction l with
  | nil => simp at h
  | cons a l ih =>
    rcases List.mem_cons.mp h with h1 | h2
    · rw [← h1]
      show optAdd none (optSum l) = none
      rfl
    · show optAdd a (optSum l) = none
      rw [ih h2]
      cases a <;> rfl

theorem optMean_eq_none {l : List (Option ℚ)} (h : none ∈ l) : optMean l = none := by
  unfold optMean
  rw [optSum_eq_none h]
  rfl

theorem block_flatten_length (f t : Nat) (g : Nat → Nat → Option ℚ) :
    (((List.range f).map (fun a => (List.range t).map (fun b => g a b))).flatten).length
      = f * t := by
  rw [List.length_flatten, List.map_map]
  have h1 : (List.range f).map
      (List.length ∘ fun a => (List.range t).map (fun b => g a b)) =
      List.replicate f t := by
    have h2 : (List.range f).map
        (List.length ∘ fun a => (List.range t).map (fun b => g a b)) =
        (List.range f).map (fun _ => t) := by
      apply List.map_congr_left
      intro a _
      simp
    rw [h2, List.map_const', List.length_range]
  rw [h1, List.sum_replicate, smul_eq_mul]

theorem bin_cell_eq (X : List (List (Option ℚ))) (f t : Nat)
    (hf : 1 ≤ f) (ht : 1 ≤ t)
    (hrect : ∀ row ∈ X, row.length = shape1 X)
    {i j : Nat} (hi : i < X.length / f) (hj : j < shape1 X / t) :
    ((bin_spectrogram X f t).getD i []).getD j none =
      optMean (((List.range f).map (fun a => (List.range t).map (fun b =>
        (X.getD (i * f + a) []).getD (j * t + b) none))).flatten) := by
  have hf0 : 0 < f := hf
  have ht0 : 0 < t := ht
  have hKle : X.length - X.length % f ≤ X.length := Nat.sub_le _ _
  have hKeq : X.length - X.length % f = (X.length / f) * f := by
    have h := Nat.div_add_mod X.length f
    have h2 : X.length / f * f = f * (X.length / f) := Nat.mul_comm _ _
    omega
  have hiK : i * f + f ≤ X.length - X.length % f := by
    have h1 : (i + 1) * f ≤ (X.length / f) * f := Nat.mul_le_mul_right f hi
    have h2 : (i + 1) * f = i * f + f := Nat.succ_mul i f
    omega
  have hLle : shape1 X - shape1 X % t ≤ shape1 X := Nat.sub_le _ _
  have hLeq : shape1 X - shape1 X % t = (shape1 X / t) * t := by
    have h := Nat.div_add_mod (shape1 X) t
    have h2 : shape1 X / t * t = t * (shape1 X / t) := Nat.mul_comm _ _
    omega
  have hjL : j * t + t ≤ shape1 X - shape1 X % t := by
    have h1 : (j + 1) * t ≤ (shape1 X / t) * t := Nat.mul_le_mul_right t hj
    have h2 : (j + 1) * t = j * t + t := Nat.succ_mul j t
    omega
  have hK1 : 1 ≤ X.length - X.length % f := by omega
  simp only [bin_spectrogram, shape0]
  have hsh1a1 : shape1 (X.take (X.length - X.length % f)) = shape1 X := by
    unfold shape1
    rw [headD_take X hK1]
  rw [hsh1a1]
  have ha2len : (List.map (fun row => row.take (shape1 X - shape1 X % t))
      (X.take (X.length - X.length % f))).length = X.length - X.length % f := by
    rw [List.length_map, List.length_take]
    omega
  rw [ha2len]
  have hsh1a2 : shape1 (List.map (fun row => row.take (shape1 X - shape1 X % t))
      (X.take (X.length - X.length % f))) = shape1 X - shape1 X % t := by
    unfold shape1
    cases hX : X.take (X.length - X.length % f) with
    | nil =>
      exfalso
      have := congrArg List.length hX
      simp only [List.length_take, List.length_nil] at this
      omega
    | cons r rs =>
      simp only [List.map_cons, List.headD_cons]
      have hrX : r = X.headD [] := by
        have h := headD_take X hK1
        rw [hX] at h
        simpa using h
      rw [List.length_take, hrX]
      have hhd : (X.headD []).length = shape1 X := rfl
      rw [hhd]
      omega
  rw [hsh1a2]
  have hdivf : (X.length - X.length % f) / f = X.length / f := by
    rw [hKeq, Nat.mul_div_cancel _ hf0]
  have hdivt : (shape1 X - shape1 X % t) / t = shape1 X / t := by
    rw [hLeq, Nat.mul_div_cancel _ ht0]
  rw [hdivf, hdivt]
  simp only [getD_map_range _ _ hi, getD_map_range _ _ hj]
  have key : (((List.map (fun row => row.take (shape1 X - shape1 X % t))
        (X.take (X.length - X.length % f))).drop (i * f)).take f).map
        (fun row => (row.drop (j * t)).take t)
      = (List.range f).map (fun a => (List.range t).map (fun b =>
          (X.getD (i * f + a) []).getD (j * t + b) none)) := by
    apply List.ext_getElem
    · rw [List.length_map, List.length_take, List.length_drop, ha2len,
        List.length_map, List.length_range]
      omega
    · intro a ha1 ha2
      have haf : a < f := by
        rw [List.length_map, List.length_take, List.length_drop, ha2len] at ha1
        omega
      have hidx : i * f + a < X.length := by omega
      rw [List.getElem_map, List.getElem_take, List.getElem_drop,
        List.getElem_map, List.getElem_take, List.getElem_map, List.getElem_range]
      have hrowlen : X[i * f + a].length = shape1 X :=
        hrect _ (List.getElem_mem _)
      apply List.ext_getElem
      · rw [List.length_take, List.length_drop, List.length_take, hrowlen,
          List.length_map, List.length_range]
        omega
      · intro b hb1 hb2
        have hbt : b < t := by
          rw [List.length_take, List.length_drop, List.length_take, hrowlen] at hb1
          omega
        have hcol : j * t + b < shape1 X := by omega
        rw [List.getElem_take, List.getElem_drop, List.getElem_take,
          List.getElem_map, List.getElem_range]
        rw [getD_of_lt _ _ hidx, getD_of_lt _ _ (by rw [hrowlen]; exact hcol)]
  rw [key]

theorem shape1_map_take (X : List (List (Option ℚ))) {k L : Nat}
    (hk1 : 1 ≤ k) (hkF : k ≤ X.length) (hL : L ≤ shape1 X) :
    shape1 ((X.take k).map (fun row => row.take L)) = L := by
  cases hX : X.take k with
  | nil =>
    exfalso
    have := congrArg List.length hX
    simp only [List.length_take, List.length_nil] at this
    omega
  | cons r rs =>
    unfold shape1
    simp only [List.map_cons, List.headD_cons]
    have hrX : r = X.headD [] := by
      have h := headD_take X hk1
      rw [hX] at h
      simpa using h
    rw [List.length_take, hrX]
    have hhd : (X.headD []).length = shape1 X := rfl
    rw [hhd]
    omega

/-- C3: shape law of the binner. For every input and factors at least 1,
`bin_spectrogram` returns (without error) a list of `shape0 X / f` rows, each
of length `shape1 X / t`; when a factor exceeds the axis length the
corresponding axis collapses to length 0 rather than failing. -/
theorem bin_shape_law (X : List (List (Option ℚ))) (f t : Nat)
    (hf : 1 ≤ f) (ht : 1 ≤ t) :
    (bin_spectrogram X f t).length = shape0 X / f ∧
    ∀ row ∈ bin_spectrogram X f t, row.length = shape1 X / t := by
  have hf0 : 0 < f := hf
  have ht0 : 0 < t := ht
  have hKeq : X.length - X.length % f = (X.length / f) * f := by
    have h := Nat.div_add_mod X.length f
    have h2 : X.length / f * f = f * (X.length / f) := Nat.mul_comm _ _
    omega
  have hLeq : shape1 X - shape1 X % t = (shape1 X / t) * t := by
    have h := Nat.div_add_mod (shape1 X) t
    have h2 : shape1 X / t * t = t * (shape1 X / t) := Nat.mul_comm _ _
    omega
  have hmodf : X.length % f < f := Nat.mod_lt _ hf0
  simp only [bin_spectrogram, shape0]
  by_cases hK : 1 ≤ X.length - X.length % f
  · have hsh1a1 : shape1 (X.take (X.length - X.length % f)) = shape1 X := by
      unfold shape1
      rw [headD_take X hK]
    rw [hsh1a1]
    have ha2len : (List.map (fun row => row.take (shape1 X - shape1 X % t))
        (X.take (X.length - X.length % f))).length = X.length - X.length % f := by
      rw [List.length_map, List.length_take]
      omega
    rw [ha2len]
    have hsh1a2 := shape1_map_take X (k := X.length - X.length % f)
      (L := shape1 X - shape1 X % t) hK (Nat.sub_le _ _) (Nat.sub_le _ _)
    rw [hsh1a2]
    rw [hKeq, Nat.mul_div_cancel _ hf0, hLeq, Nat.mul_div_cancel _ ht0]
    constructor
    · rw [List.length_map, List.length_range]
    · intro row hrow
      rcases List.mem_map.mp hrow with ⟨idx, _, heq⟩
      rw [← heq, List.length_map, List.length_range]
  · have hK0 : X.length - X.length % f = 0 := by omega
    rw [hK0]
    simp only [List.take_zero, List.map_nil, List.length_nil, Nat.zero_div,
      List.range_zero]
    constructor
    · have : X.length / f = 0 := Nat.div_eq_of_lt (by omega)
      omega
    · intro row hrow
      simp at hrow

/-- Witness for C3 at a concrete input with a non-divisible time axis. -/
theorem bin_shape_law_witness :
    (bin_spectrogram [[some 1, some 2, some 3], [some 4, some 5, some 6]] 2 2).length
        = shape0 ([[some 1, some 2, some 3], [some 4, some 5, some 6]] :
            List (List (Option ℚ))) / 2 ∧
    ∀ row ∈ bin_spectrogram [[some 1, some 2, some 3], [some 4, some 5, some 6]] 2 2,
      row.length = shape1 ([[some 1, some 2, some 3], [some 4, some 5, some 6]] :
        List (List (Option ℚ))) / 2 :=
  bin_shape_law [[some 1, some 2, some 3], [some 4, some 5, some 6]] 2 2
    (by norm_num) (by norm_num)

/-- C2: every output cell of the binner is the arithmetic mean of exactly
`freq_factor * time_factor` input cells, namely the block covering rows
`i*f .. i*f+f-1` and columns `j*t .. j*t+t-1` of the input; remainder
rows/columns are dropped from the high-index tail only (all block indices
start at `i*f` and `j*t`, counted from index 0). -/
theorem bin_block_mean (X : List (List (Option ℚ))) (f t : Nat)
    (hf : 1 ≤ f) (hfF : f ≤ shape0 X) (ht : 1 ≤ t) (htT : t ≤ shape1 X)
    (hrect : ∀ row ∈ X, row.length = shape1 X)
    {i j : Nat} (hi : i < shape0 X / f) (hj : j < shape1 X / t) :
    (((List.range f).map (fun a => (List.range t).map (fun b =>
        (X.getD (i * f + a) []).getD (j * t + b) none))).flatten).length = f * t ∧
    ((bin_spectrogram X f t).getD i []).getD j none =
      optMean (((List.range f).map (fun a => (List.range t).map (fun b =>
        (X.getD (i * f + a) []).getD (j * t + b) none))).flatten) :=
  ⟨block_flatten_length f t _, bin_cell_eq X f t hf ht hrect hi hj⟩

/-- Witness for C2 at a concrete 2-by-2 block. -/
theorem bin_block_mean_witness :
    (((List.range 2).map (fun a => (List.range 2).map (fun b =>
        (([[some 1, some 2], [some 3, some 4]] :
          List (List (Option ℚ))).getD (0 * 2 + a) []).getD (0 * 2 + b) none))).flatten).length
        = 2 * 2 ∧
    ((bin_spectrogram [[some 1, some 2], [some 3, some 4]] 2 2).getD 0 []).getD 0 none =
      optMean (((List.range 2).map (fun a => (List.range 2).map (fun b =>
        (([[some 1, some 2], [some 3, some 4]] :
          List (List (Option ℚ))).getD (0 * 2 + a) []).getD (0 * 2 + b) none))).flatten) :=
  bin_block_mean [[some 1, some 2], [some 3, some 4]] 2 2
    (by norm_num) (by decide) (by norm_num) (by decide) (by decide)
    (by decide) (by decide)

/-- C7: missing-value propagation. If any cell of the source block is the
missing marker, the corresponding output cell of the binner is the missing
marker: NaN is never skipped by the block average. -/
theorem bin_missing_propagation (X : List (List (Option ℚ))) (f t : Nat)
    (hf : 1 ≤ f) (ht : 1 ≤ t)
    (hrect : ∀ row ∈ X, row.length = shape1 X)
    {i j a b : Nat} (hi : i < shape0 X / f) (hj : j < shape1 X / t)
    (ha : a < f) (hb : b < t)
    (hnan : (X.getD (i * f + a) []).getD (j * t + b) none = none) :
    ((bin_spectrogram X f t).getD i []).getD j none = none := by
  rw [bin_cell_eq X f t hf ht hrect hi hj]
  apply optMean_eq_none
  refine List.mem_flatten.mpr ⟨(List.range t).map (fun b =>
    (X.getD (i * f + a) []).getD (j * t + b) none), ?_, ?_⟩
  · exact List.mem_map.mpr ⟨a, List.mem_range.mpr ha, rfl⟩
  · exact List.mem_map.mpr ⟨b, List.mem_range.mpr hb, hnan⟩

/-- Witness for C7 at a concrete block containing a missing cell. -/
theorem bin_missing_propagation_witness :
    ((bin_spectrogram [[some 1, none], [some 3, some 4]] 2 2).getD 0 []).getD 0 none =
      none :=
  @bin_missing_propagation [[some 1, none], [some 3, some 4]] 2 2
    (by norm_num) (by norm_num) (by decide) 0 0 0 1 (by decide) (by decide)
    (by decide) (by decide) rfl

/-- C9: cleaned/burst complementarity. At every cell whose binned value is
not the missing marker, the cleaned array is missing exactly when the mask is
True, the burst array is missing exactly when the mask is False, and exactly
one of the two derived arrays is missing there. -/
theorem cleaned_burst_complementary (binned : List (List (Option ℚ)))
    (mask : List (List Bool)) (r c : Nat)
    (hr : r < binned.length) (hrm : r < mask.length)
    (hc : c < (binned.getD r []).length) (hcm : c < (mask.getD r []).length)
    (v : ℚ) (hv : (binned.getD r []).getD c none = some v) :
    (((cleaned_data binned mask).getD r []).getD c none = none ↔
      (mask.getD r []).getD c false = true) ∧
    (((burst_data binned mask).getD r []).getD c none = none ↔
      (mask.getD r []).getD c false = false) ∧
    (((cleaned_data binned mask).getD r []).getD c none = none ↔
      ¬ ((burst_data binned mask).getD r []).getD c none = none) := by
  have hbrow : binned.getD r [] = binned[r] := getD_of_lt _ _ hr
  have hmrow : mask.getD r [] = mask[r] := getD_of_lt _ _ hrm
  rw [hbrow] at hc hv
  rw [hmrow] at hcm
  rw [hmrow]
  have h1 : (cleaned_data binned mask).getD r [] =
      (binned[r].zip mask[r]).map (fun p => if p.2 then none else p.1) := by
    unfold cleaned_data
    rw [getD_of_lt _ _ (by rw [List.length_map, List.length_zip]; omega),
      List.getElem_map, List.getElem_zip]
  have h2 : (burst_data binned mask).getD r [] =
      (binned[r].zip mask[r]).map (fun p => if p.2 then p.1 else none) := by
    unfold burst_data
    rw [getD_of_lt _ _ (by rw [List.length_map, List.length_zip]; omega),
      List.getElem_map, List.getElem_zip]
  rw [h1, h2]
  have hcz : c < (binned[r].zip mask[r]).length := by
    rw [List.length_zip]
    omega
  have hc1 : ((binned[r].zip mask[r]).map (fun p => if p.2 then none else p.1)).getD c none
      = (if mask[r][c] then none else binned[r][c]) := by
    rw [getD_of_lt _ _ (by rw [List.length_map]; exact hcz), List.getElem_map,
      List.getElem_zip]
  have hc2 : ((binned[r].zip mask[r]).map (fun p => if p.2 then p.1 else none)).getD c none
      = (if mask[r][c] then binned[r][c] else none) := by
    rw [getD_of_lt _ _ (by rw [List.length_map]; exact hcz), List.getElem_map,
      List.getElem_zip]
  have hm : mask[r].getD c false = mask[r][c] := getD_of_lt _ _ hcm
  have hbv : binned[r][c] = some v := by
    rw [← getD_of_lt _ _ hc]
    exact hv
  rw [hc1, hc2, hm, hbv]
  cases hb : mask[r][c] with
  | true => simp
  | false => simp

/-- Witness for C9 at a concrete cell. -/
theorem cleaned_burst_complementary_witness :
    (((cleaned_data [[some 1, some 2]] [[true, false]]).getD 0 []).getD 0 none = none ↔
      (([[true, false]] : List (List Bool)).getD 0 []).getD 0 false = true) ∧
    (((burst_data [[some 1, some 2]] [[true, false]]).getD 0 []).getD 0 none = none ↔
      (([[true, false]] : List (List Bool)).getD 0 []).getD 0 false = false) ∧
    (((cleaned_data [[some 1, some 2]] [[true, false]]).getD 0 []).getD 0 none = none ↔
      ¬ ((burst_data [[some 1, some 2]] [[true, false]]).getD 0 []).getD 0 none = none) :=
  cleaned_burst_complementary [[some 1, some 2]] [[true, false]] 0 0
    (by decide) (by decide) (by decide) (by decide) 1 rfl

end Helio
